import Mathlib

/-!
Shallow embedding of the finance-tracker ledger (src/script.js and the
unnamed variant src/unnamed/part_000).

The program keeps an in-memory array `transactions` of transaction objects,
persists it as JSON under the single localStorage key `transactions`, and
derives income/expense/balance summaries.  We embed:

  * the `Transaction` record (fields `id`, `amount`, `category`,
    `description`, `date`, `type`, exactly the object literal built in
    `addTransaction`);
  * `addTransaction` (both variants: script.js trims `amount`, `category`
    and `date` before the presence check; the part_000 variant only tests
    falsiness, i.e. emptiness, of the raw field values);
  * the delete action of `handleListClick`
    (`transactions = transactions.filter(t => t.id !== id)`);
  * the render order of `renderTransactions`
    (`[...transactions].sort((a, b) => new Date(b.date) - new Date(a.date))`,
    the `list()` of the spec) — ECMAScript 2019 requires `Array.prototype.sort`
    to be stable, so we embed it as `List.mergeSort`, the stable sort of Lean,
    with the ordering of the comparator;
  * `updateSummary` (filter/reduce with `parseFloat`, the spec
    `summarize`);
  * `saveTransactions` (`JSON.stringify` of the collection, written to the
    storage slot) and the load expression
    `JSON.parse(localStorage.getItem('transactions')) || []`, with a real
    JSON printer and a real fuel-indexed JSON parser so that well-formed
    and malformed blobs behave exactly as `JSON.parse` does (it throws a
    SyntaxError on malformed input; it does not return a fallback).

Numbers are idealised as exact rationals (`Rat`) extended with the IEEE
special values NaN and ±Infinity that `parseFloat` can produce; the claims
under study do not depend on double rounding.
-/

/-- Transaction record, exactly the object literal of `addTransaction`:
`{ id: Date.now(), amount, category, description, date, type }`. -/
structure Transaction where
  id : Nat
  amount : String
  category : String
  description : String
  date : String
  type : String
  deriving DecidableEq, Repr

/-- Raw form-field values handed to `addTransaction` by the presentation
layer (`amountInput.value`, `categoryInput.value`, `descriptionInput.value`,
`dateInput.value`, `typeInput.value`). -/
structure AddInput where
  amount : String
  category : String
  description : String
  date : String
  type : String
  deriving DecidableEq, Repr

/-- Characters removed by JavaScript `String.prototype.trim`
(ECMAScript WhiteSpace and LineTerminator code points). -/
def isJsWhitespace (c : Char) : Bool :=
  c == ' ' || c == '\t' || c == '\n' || c == '\x0b' || c == '\x0c' || c == '\r' ||
  c == '\xa0' || c == '\u1680' || (0x2000 ≤ c.toNat && c.toNat ≤ 0x200a) ||
  c == '\u2028' || c == '\u2029' || c == '\u202f' || c == '\u205f' ||
  c == '\u3000' || c == '\ufeff'

/-- JavaScript `String.prototype.trim`: strip leading and trailing
whitespace. -/
def jsTrim (s : String) : String :=
  String.mk (((s.data.dropWhile isJsWhitespace).reverse.dropWhile isJsWhitespace).reverse)

/-! ## Dates

`renderTransactions` sorts using `new Date(b.date) - new Date(a.date)`.
For the `YYYY-MM-DD` strings produced by the date input (and required by
the persistent-state layout, spec §6), `new Date` parses the ISO date to a
UTC timestamp, and yields an Invalid Date (NaN) when a component is out of
range.  The timestamp order of valid ISO dates coincides with the order of
the numeric key `(y * 100 + m) * 100 + d`, which we use below.  On strings
that are not valid `YYYY-MM-DD` dates the comparator returns NaN and the
ECMAScript sort order is implementation-defined, so our theorems about the
render order restrict to collections of valid dates; `dateValue` decides
validity. -/

/-- Numeric value of a decimal digit character. -/
def digitVal (c : Char) : Nat := c.toNat - '0'.toNat

/-- Gregorian leap year test (as used by the JavaScript `Date` built-in). -/
def isLeapYear (y : Nat) : Bool := (y % 4 == 0 && y % 100 != 0) || y % 400 == 0

/-- Number of days in month `m` of year `y`. -/
def daysInMonth (y m : Nat) : Nat :=
  if m == 2 then (if isLeapYear y then 29 else 28)
  else if m == 4 || m == 6 || m == 9 || m == 11 then 30
  else 31

/-- Key of a `YYYY-MM-DD` date string: `some ((y * 100 + m) * 100 + d)` when
the string is a valid ISO calendar date (the order of these keys is the
order of the UTC timestamps `new Date` assigns), `none` when `new Date`
would yield an Invalid Date. -/
def dateValue (s : String) : Option Nat :=
  match s.data with
  | [y1, y2, y3, y4, sep1, m1, m2, sep2, d1, d2] =>
    if y1.isDigit && y2.isDigit && y3.isDigit && y4.isDigit &&
       sep1 == '-' && sep2 == '-' && m1.isDigit && m2.isDigit &&
       d1.isDigit && d2.isDigit then
      let y := ((digitVal y1 * 10 + digitVal y2) * 10 + digitVal y3) * 10 + digitVal y4
      let m := digitVal m1 * 10 + digitVal m2
      let d := digitVal d1 * 10 + digitVal d2
      if 1 ≤ m && m ≤ 12 && 1 ≤ d && d ≤ daysInMonth y m then
        some ((y * 100 + m) * 100 + d)
      else none
    else none
  | _ => none

/-- Sort key of a transaction (`0` on invalid dates; the render-order
theorems only concern collections whose dates are all valid). -/
def dateKeyT (t : Transaction) : Nat := (dateValue t.date).getD 0

/-- Comparator of `renderTransactions`: `a` may precede `b` exactly when
`new Date(b.date) - new Date(a.date) <= 0`, i.e. descending date order. -/
def dateDescLe (a b : Transaction) : Bool := decide (dateKeyT b ≤ dateKeyT a)

/-- Render order of `renderTransactions`, the `list()` of the spec:
`[...transactions].sort((a,b) => new Date(b.date) - new Date(a.date))`.
ECMAScript 2019 requires `Array.prototype.sort` to be stable; any stable
sort of a fixed comparator computes the same list, and `List.mergeSort` is
the stable sort of Lean. -/
def listTransactions (ts : List Transaction) : List Transaction :=
  ts.mergeSort dateDescLe

/-! ## Summary arithmetic

`updateSummary` computes `parseFloat(t.amount)` sums.  JavaScript numbers
are doubles; the claims under study involve no rounding behaviour, so we
idealise the finite values as exact rationals and keep the special values
`NaN`, `Infinity` and `-Infinity` that `parseFloat` can return. -/

/-- JavaScript number, idealised: NaN, the two infinities, or an exact
finite value. -/
inductive JsNum where
  | nan
  | inf
  | neginf
  | fin (q : Rat)
  deriving DecidableEq, Repr

/-- JavaScript `+` on numbers: NaN absorbs, opposite infinities give NaN,
an infinity absorbs finite values, finite addition is exact. -/
def jsAdd : JsNum → JsNum → JsNum
  | .nan, _ => .nan
  | _, .nan => .nan
  | .inf, .neginf => .nan
  | .neginf, .inf => .nan
  | .inf, _ => .inf
  | _, .inf => .inf
  | .neginf, _ => .neginf
  | _, .neginf => .neginf
  | .fin a, .fin b => .fin (a + b)

/-- JavaScript unary minus on numbers. -/
def jsNeg : JsNum → JsNum
  | .nan => .nan
  | .inf => .neginf
  | .neginf => .inf
  | .fin a => .fin (-a)

/-- JavaScript `-` on numbers. -/
def jsSub (a b : JsNum) : JsNum := jsAdd a (jsNeg b)

/-- Numeric value of a digit run. -/
def digitsVal (ds : List Char) : Nat := ds.foldl (fun acc c => acc * 10 + digitVal c) 0

/-- Optionally signed digit run (used for the exponent of a decimal
literal); `none` when no digit follows the sign. -/
def signedDigits (cs : List Char) : Option Int :=
  match cs with
  | '+' :: rest =>
    if rest.takeWhile Char.isDigit == [] then none
    else some (digitsVal (rest.takeWhile Char.isDigit) : Int)
  | '-' :: rest =>
    if rest.takeWhile Char.isDigit == [] then none
    else some (-(digitsVal (rest.takeWhile Char.isDigit) : Int))
  | _ =>
    if cs.takeWhile Char.isDigit == [] then none
    else some (digitsVal (cs.takeWhile Char.isDigit) : Int)

/-- Exponent contributed by an `e`/`E` suffix; `0` when the characters do
not begin a valid exponent part (JavaScript `parseFloat` stops before an
incomplete exponent). -/
def expPart (cs : List Char) : Int :=
  match cs with
  | 'e' :: rest => (signedDigits rest).getD 0
  | 'E' :: rest => (signedDigits rest).getD 0
  | _ => 0

/-- Unsigned decimal literal prefix (`digits [. digits] [exp]` or
`. digits [exp]`): `none` when the characters contain no leading digits at
all, otherwise the exact value of the longest valid literal prefix. -/
def parseUnsigned (cs : List Char) : Option Rat :=
  let intDs := cs.takeWhile Char.isDigit
  let rest1 := cs.dropWhile Char.isDigit
  match rest1 with
  | '.' :: rest2 =>
    let fracDs := rest2.takeWhile Char.isDigit
    let rest3 := rest2.dropWhile Char.isDigit
    if intDs == [] && fracDs == [] then none
    else
      let mant : Rat := (digitsVal intDs : Rat) + (digitsVal fracDs : Rat) / ((10 : Rat) ^ fracDs.length)
      some (mant * (10 : Rat) ^ (expPart rest3))
  | _ =>
    if intDs == [] then none
    else some ((digitsVal intDs : Rat) * (10 : Rat) ^ (expPart rest1))

/-- Unsigned body of `parseFloat` after the optional sign: `Infinity`, or a
decimal literal, else NaN. -/
def parseFloatBody (neg : Bool) (cs : List Char) : JsNum :=
  if cs.take 8 == "Infinity".data then (if neg then .neginf else .inf)
  else
    match parseUnsigned cs with
    | some q => .fin (if neg then -q else q)
    | none => .nan

/-- JavaScript `parseFloat`: skip leading whitespace, read an optional
sign, then the longest `Infinity`-or-decimal literal prefix; NaN when none
exists. -/
def jsParseFloat (s : String) : JsNum :=
  match s.data.dropWhile isJsWhitespace with
  | '+' :: rest => parseFloatBody false rest
  | '-' :: rest => parseFloatBody true rest
  | cs => parseFloatBody false cs

/-- Derived summary triple (`updateSummary` / the `summarize` of the spec). -/
structure Summary where
  income : JsNum
  expense : JsNum
  balance : JsNum
  deriving DecidableEq, Repr

/-- The spec `summarize` over a collection, exactly `updateSummary`:
`income` and `expense` are `filter(...).reduce((acc, t) => acc +
parseFloat(t.amount), 0)`, and `balance = income - expense`. -/
def summarize (ts : List Transaction) : Summary :=
  let income := (ts.filter (fun t => t.type == "income")).foldl
    (fun acc t => jsAdd acc (jsParseFloat t.amount)) (.fin 0)
  let expense := (ts.filter (fun t => t.type == "expense")).foldl
    (fun acc t => jsAdd acc (jsParseFloat t.amount)) (.fin 0)
  { income := income, expense := expense, balance := jsSub income expense }

/-- Sum of a list of JavaScript numbers, left to right from `0` (the
reading "sum of the parsed amounts" in the spec). -/
def jsSum (l : List JsNum) : JsNum := l.foldl jsAdd (.fin 0)

/-! ## JSON values and the printer

`saveTransactions` runs `localStorage.setItem('transactions',
JSON.stringify(transactions))`.  `JSON.stringify` of the transaction array
produces, with no spacing, `[` obj `,` obj `,` ... `]` where each object
lists the six fields in insertion order and quotes strings with the
standard JSON escapes (`\"`, `\\`, `\b`, `\t`, `\n`, `\f`, `\r`, and
`\u00xx` for the remaining control characters). -/

/-- Numeric literal of a JSON number, kept in the exact scientific form
`mant * 10 ^ exp10`.  (We keep the literal rather than a normalised
rational so that every computation stays kernel-reducible; `jsonNumVal`
gives the denoted value.  `JSON.stringify` output always has `exp10 = 0`
and a canonical mantissa, so structural equality on stringified blobs is
value equality.) -/
structure JsonNum where
  mant : Int
  exp10 : Int
  deriving DecidableEq, Repr

/-- Denoted value of a JSON number literal. -/
def jsonNumVal (l : JsonNum) : Rat := (l.mant : Rat) * (10 : Rat) ^ l.exp10

/-- JSON value (the image of `JSON.parse`). -/
inductive Json where
  | null
  | bool (b : Bool)
  | num (l : JsonNum)
  | str (s : String)
  | arr (elems : List Json)
  | obj (fields : List (String × Json))
  deriving Repr

/-- JavaScript truthiness of a parsed JSON value (`v || []` keeps `v`
exactly when `v` is truthy; arrays and objects are always truthy; a number
is falsy exactly when its value is zero, i.e. its mantissa is zero). -/
def jsTruthy : Json → Bool
  | .null => false
  | .bool b => b
  | .num l => decide (l.mant ≠ 0)
  | .str s => s ≠ ""
  | .arr _ => true
  | .obj _ => true

/-- Lower-case hexadecimal digit character. -/
def hexDigitChar (n : Nat) : Char :=
  if n < 10 then Char.ofNat ('0'.toNat + n) else Char.ofNat ('a'.toNat + (n - 10))

/-- JSON escape of one character inside a quoted string, exactly
`QuoteJSONString` of `JSON.stringify`. -/
def escChar (c : Char) : List Char :=
  if c = '\"' then ['\\', '\"']
  else if c = '\\' then ['\\', '\\']
  else if c = '\x08' then ['\\', 'b']
  else if c = '\t' then ['\\', 't']
  else if c = '\n' then ['\\', 'n']
  else if c = '\x0c' then ['\\', 'f']
  else if c = '\r' then ['\\', 'r']
  else if c.toNat < 0x20 then
    ['\\', 'u', '0', '0', hexDigitChar (c.toNat / 16), hexDigitChar (c.toNat % 16)]
  else [c]

/-- Characters of the JSON quotation of a string. -/
def quoteChars (s : String) : List Char :=
  '\"' :: s.data.foldr (fun c acc => escChar c ++ acc) ['\"']

/-- Escaped characters of a string (the quotation body, without the
surrounding quotes). -/
def escAll (l : List Char) : List Char := l.foldr (fun c acc => escChar c ++ acc) []

/-- Decimal digit character for `k < 10`. -/
def digitChar (k : Nat) : Char := Char.ofNat ('0'.toNat + k)

/-- Decimal digits of `n`, most significant first, accumulated onto `acc`;
structurally recursive on a fuel that any `fuel ≥ n` makes sufficient. -/
def natDigitsAux : Nat → Nat → List Char → List Char
  | _, 0, acc => '0' :: acc
  | 0, _, acc => acc
  | fuel + 1, n, acc =>
    if n < 10 then digitChar n :: acc
    else natDigitsAux fuel (n / 10) (digitChar (n % 10) :: acc)

/-- Decimal notation of a natural number (the `JSON.stringify` notation of
an integral double such as `Date.now()`). -/
def natToChars (n : Nat) : List Char := natDigitsAux n n []

/-- Characters after the opening brace of the stringified transaction
object: the six fields in insertion order, no spacing. -/
def stringifyTxBody (t : Transaction) : List Char :=
  quoteChars "id" ++ ':' :: natToChars t.id
    ++ ',' :: quoteChars "amount" ++ ':' :: quoteChars t.amount
    ++ ',' :: quoteChars "category" ++ ':' :: quoteChars t.category
    ++ ',' :: quoteChars "description" ++ ':' :: quoteChars t.description
    ++ ',' :: quoteChars "date" ++ ':' :: quoteChars t.date
    ++ ',' :: quoteChars "type" ++ ':' :: quoteChars t.type
    ++ ['\x7d']

/-- Characters of `JSON.stringify` of one transaction object. -/
def stringifyTxChars (t : Transaction) : List Char :=
  '\x7b' :: stringifyTxBody t

/-- Characters of the comma-separated element list of the stringified
array. -/
def stringifyListChars : List Transaction → List Char
  | [] => []
  | [t] => stringifyTxChars t
  | t :: ts => stringifyTxChars t ++ ',' :: stringifyListChars ts

/-- `JSON.stringify(transactions)`: the persisted blob. -/
def stringifyTransactions (ts : List Transaction) : String :=
  String.mk ('[' :: stringifyListChars ts ++ [']'])

/-- JSON encoding of one transaction (the value `JSON.parse` recovers from
the stringified object). -/
def encodeTx (t : Transaction) : Json :=
  .obj [("id", .num ⟨(t.id : Int), 0⟩), ("amount", .str t.amount),
        ("category", .str t.category), ("description", .str t.description),
        ("date", .str t.date), ("type", .str t.type)]

/-- JSON encoding of the whole collection. -/
def encodeTxs (ts : List Transaction) : Json :=
  .arr (ts.map encodeTx)

/-- Field lookup in a decoded JSON object (first binding wins, as in a
parsed JSON object without duplicate keys). -/
def jsonField (fields : List (String × Json)) (k : String) : Option Json :=
  match fields.find? (fun p => p.1 == k) with
  | some p => some p.2
  | none => none

/-- Reading a transaction back out of a JSON value: the six fields with
their layout types (spec section 6).  The source has no explicit decoder —
the parsed objects are used directly — so this is the specification-side
reading of "equal field-for-field". -/
def decodeTx (v : Json) : Option Transaction :=
  match v with
  | .obj fields =>
    match jsonField fields "id", jsonField fields "amount",
          jsonField fields "category", jsonField fields "description",
          jsonField fields "date", jsonField fields "type" with
    | some (.num i), some (.str a), some (.str c), some (.str de),
      some (.str da), some (.str ty) =>
      if i.mant ≥ 0 ∧ i.exp10 = 0 then
        some { id := i.mant.toNat, amount := a, category := c,
               description := de, date := da, type := ty }
      else none
    | _, _, _, _, _, _ => none
  | _ => none

/-- Reading a list of transactions back out of a list of JSON values. -/
def decodeTxList : List Json → Option (List Transaction)
  | [] => some []
  | v :: vs =>
    match decodeTx v, decodeTxList vs with
    | some t, some ts => some (t :: ts)
    | _, _ => none

/-- Reading a whole collection back out of a JSON value. -/
def decodeTxs (v : Json) : Option (List Transaction) :=
  match v with
  | .arr elems => decodeTxList elems
  | _ => none

/-! ## Ledger operations -/

/-- Application state: the in-memory `transactions` array plus the
persisted blob under the localStorage key `transactions` (`none` when the
key is absent). -/
structure AppState where
  transactions : List Transaction
  storage : Option String
  deriving DecidableEq, Repr

/-- The result an `addTransaction` call signals: the validation-error modal
(early return, no mutation), or the record that was appended. -/
inductive AddOutcome where
  | rejected
  | added (t : Transaction)
  deriving DecidableEq, Repr

/-- `saveTransactions`:
`localStorage.setItem('transactions', JSON.stringify(transactions))`. -/
def saveTransactions (st : AppState) : AppState :=
  { st with storage := some (stringifyTransactions st.transactions) }

/-- The record `addTransaction` builds:
`{ id: Date.now(), amount, category, description, date, type }` with
`now = Date.now()`. -/
def mkTransaction (now : Nat) (inp : AddInput) : Transaction :=
  { id := now, amount := inp.amount, category := inp.category,
    description := inp.description, date := inp.date, type := inp.type }

/-- `addTransaction` of src/script.js: reject when the trimmed `amount`,
`category` or `date`, or the raw `type`, is empty; otherwise push the new
record and persist. -/
def addTransactionScript (now : Nat) (inp : AddInput) (st : AppState) :
    AppState × AddOutcome :=
  if jsTrim inp.amount == "" || jsTrim inp.category == "" ||
     jsTrim inp.date == "" || inp.type == "" then
    (st, .rejected)
  else
    let t := mkTransaction now inp
    (saveTransactions { st with transactions := st.transactions ++ [t] }, .added t)

/-- `addTransaction` of src/unnamed/part_000: reject when any of the four
raw field values is falsy (for strings: empty); otherwise push the new
record and persist. -/
def addTransactionVariant (now : Nat) (inp : AddInput) (st : AppState) :
    AppState × AddOutcome :=
  if inp.amount == "" || inp.category == "" || inp.date == "" || inp.type == "" then
    (st, .rejected)
  else
    let t := mkTransaction now inp
    (saveTransactions { st with transactions := st.transactions ++ [t] }, .added t)

/-- The confirmed delete action of `handleListClick`:
`transactions = transactions.filter(t => t.id !== id); saveTransactions()`.
The spec `remove(id)`. -/
def removeTransaction (idArg : Nat) (st : AppState) : AppState :=
  saveTransactions { st with transactions := st.transactions.filter (fun t => t.id != idArg) }

/-! ## The JSON parser

A real recursive-descent parser for JSON text, modelling the external
`JSON.parse` built-in that line 22 applies to the persisted blob.
`JSON.parse` throws a SyntaxError on text that is not a complete JSON
value; the parser returns `none` there.  Composite values recurse on an
explicit fuel; the top level supplies `length + 1` fuel, which is always
sufficient because every recursive call is paid for by at least one
consumed character.  (One representational caveat: `\uXXXX` escapes
denoting lone UTF-16 surrogate halves are accepted by `JSON.parse` but
have no counterpart in Lean strings, which hold Unicode scalar values;
the parser rejects them.  Surrogate pairs are combined as in JS.) -/

/-- JSON insignificant whitespace. -/
def isJsonWs (c : Char) : Bool := c == ' ' || c == '\t' || c == '\n' || c == '\r'

/-- Skip insignificant whitespace. -/
def skipWs (cs : List Char) : List Char := cs.dropWhile isJsonWs

/-- Value of a hexadecimal digit character. -/
def hexVal (c : Char) : Option Nat :=
  if '0' ≤ c ∧ c ≤ '9' then some (c.toNat - '0'.toNat)
  else if 'a' ≤ c ∧ c ≤ 'f' then some (c.toNat - 'a'.toNat + 10)
  else if 'A' ≤ c ∧ c ≤ 'F' then some (c.toNat - 'A'.toNat + 10)
  else none

/-- Body of a JSON string after the opening quote, accumulating decoded
characters in reverse; returns the string and the input after the closing
quote. -/
def hexQuad (h1 h2 h3 h4 : Char) : Option Nat :=
  match hexVal h1, hexVal h2, hexVal h3, hexVal h4 with
  | some a, some b, some c, some d => some (((a * 16 + b) * 16 + c) * 16 + d)
  | _, _, _, _ => none

mutual

/-- Body of a JSON string after the opening quote, accumulating decoded
characters in reverse; returns the string and the input after the closing
quote.  A raw control character is a syntax error. -/
def parseStringBody : List Char → List Char → Option (String × List Char)
  | _, [] => none
  | acc, c :: rest =>
    if c = '\"' then some (String.mk acc.reverse, rest)
    else if c = '\\' then parseEscape acc rest
    else if c.toNat < 0x20 then none
    else parseStringBody (c :: acc) rest

/-- One escape sequence after a backslash. -/
def parseEscape : List Char → List Char → Option (String × List Char)
  | acc, '\"' :: r => parseStringBody ('\"' :: acc) r
  | acc, '\\' :: r => parseStringBody ('\\' :: acc) r
  | acc, '/' :: r => parseStringBody ('/' :: acc) r
  | acc, 'b' :: r => parseStringBody ('\x08' :: acc) r
  | acc, 'f' :: r => parseStringBody ('\x0c' :: acc) r
  | acc, 'n' :: r => parseStringBody ('\n' :: acc) r
  | acc, 'r' :: r => parseStringBody ('\r' :: acc) r
  | acc, 't' :: r => parseStringBody ('\t' :: acc) r
  | acc, 'u' :: h1 :: h2 :: h3 :: h4 :: r =>
    (match hexQuad h1 h2 h3 h4 with
    | some n =>
      if 0xd800 ≤ n ∧ n ≤ 0xdbff then parseLowSurrogate acc n r
      else if 0xdc00 ≤ n ∧ n ≤ 0xdfff then none
      else parseStringBody (Char.ofNat n :: acc) r
    | none => none)
  | _, _ => none

/-- The second half of a surrogate-pair escape (the only way `JSON.parse`
builds an astral-plane character). -/
def parseLowSurrogate : List Char → Nat → List Char → Option (String × List Char)
  | acc, n, '\\' :: 'u' :: g1 :: g2 :: g3 :: g4 :: r =>
    (match hexQuad g1 g2 g3 g4 with
    | some n2 =>
      if 0xdc00 ≤ n2 ∧ n2 ≤ 0xdfff then
        parseStringBody (Char.ofNat (0x10000 + (n - 0xd800) * 0x400 + (n2 - 0xdc00)) :: acc) r
      else none
    | none => none)
  | _, _, _ => none

end

/-- Integer part of a JSON number: `0`, or a nonzero digit followed by
digits (JSON rejects redundant leading zeros). -/
def parseJsonInt (cs : List Char) : Option (Nat × List Char) :=
  match cs with
  | [] => none
  | c :: rest =>
    if c = '0' then (if (rest.head?.getD 'x').isDigit then none else some (0, rest))
    else if c.isDigit then
      some (digitsVal ((c :: rest).takeWhile Char.isDigit), (c :: rest).dropWhile Char.isDigit)
    else none

/-- Optional fraction part of a JSON number: its digit value and digit
count (`(0, 0)` when absent; at least one digit required after the
point). -/
def parseJsonFrac : List Char → Option (Nat × Nat × List Char)
  | [] => some (0, 0, [])
  | c :: rest =>
    if c = '.' then
      let ds := rest.takeWhile Char.isDigit
      if ds == [] then none
      else some (digitsVal ds, ds.length, rest.dropWhile Char.isDigit)
    else some (0, 0, c :: rest)

/-- Digits of an exponent (at least one required). -/
def parseJsonExpDigits (neg : Bool) (cs : List Char) : Option (Int × List Char) :=
  let ds := cs.takeWhile Char.isDigit
  if ds == [] then none
  else
    let v : Int := digitsVal ds
    some (if neg then -v else v, cs.dropWhile Char.isDigit)

/-- Exponent after the `e`/`E` marker: optional sign, then digits. -/
def parseJsonExpSign (cs : List Char) : Option (Int × List Char) :=
  match cs with
  | '+' :: rest => parseJsonExpDigits false rest
  | '-' :: rest => parseJsonExpDigits true rest
  | _ => parseJsonExpDigits false cs

/-- Optional exponent part of a JSON number (`0` when absent). -/
def parseJsonExp : List Char → Option (Int × List Char)
  | [] => some (0, [])
  | c :: rest =>
    if c = 'e' ∨ c = 'E' then parseJsonExpSign rest
    else some (0, c :: rest)

/-- JSON number: optional minus, integer part, optional fraction and
exponent; the exact literal `± (i . frac) * 10 ^ e` in scientific form. -/
def parseJsonNumber (cs : List Char) : Option (JsonNum × List Char) :=
  let signSplit : Bool × List Char :=
    if cs.head? = some '-' then (true, cs.tail) else (false, cs)
  match parseJsonInt signSplit.2 with
  | none => none
  | some (i, cs2) =>
    match parseJsonFrac cs2 with
    | none => none
    | some (f, fracLen, cs3) =>
      match parseJsonExp cs3 with
      | none => none
      | some (e, cs4) =>
        let mantNat : Nat := i * 10 ^ fracLen + f
        let mant : Int := if signSplit.1 then -(mantNat : Int) else (mantNat : Int)
        some (⟨mant, e - (fracLen : Int)⟩, cs4)

mutual

/-- JSON value: dispatch on the first significant character. -/
def parseValue : Nat → List Char → Option (Json × List Char)
  | 0, _ => none
  | fuel + 1, cs =>
    match skipWs cs with
    | [] => none
    | c :: rest =>
      if c = 'n' then
        (match rest with
        | 'u' :: 'l' :: 'l' :: rest2 => some (.null, rest2)
        | _ => none)
      else if c = 't' then
        (match rest with
        | 'r' :: 'u' :: 'e' :: rest2 => some (.bool true, rest2)
        | _ => none)
      else if c = 'f' then
        (match rest with
        | 'a' :: 'l' :: 's' :: 'e' :: rest2 => some (.bool false, rest2)
        | _ => none)
      else if c = '\"' then
        (match parseStringBody [] rest with
        | some (s, rest2) => some (.str s, rest2)
        | none => none)
      else if c = '[' then
        (match skipWs rest with
        | ']' :: rest2 => some (.arr [], rest2)
        | cs2 => parseElems fuel cs2 [])
      else if c = '\x7b' then
        (match skipWs rest with
        | '\x7d' :: rest2 => some (.obj [], rest2)
        | cs2 => parseFields fuel cs2 [])
      else
        (match parseJsonNumber (c :: rest) with
        | some (q, rest2) => some (.num q, rest2)
        | none => none)

/-- Elements of a nonempty JSON array, accumulated in reverse. -/
def parseElems : Nat → List Char → List Json → Option (Json × List Char)
  | 0, _, _ => none
  | fuel + 1, cs, acc =>
    match parseValue fuel cs with
    | none => none
    | some (v, rest) =>
      match skipWs rest with
      | ',' :: rest2 => parseElems fuel rest2 (v :: acc)
      | ']' :: rest2 => some (.arr (v :: acc).reverse, rest2)
      | _ => none

/-- Members of a nonempty JSON object, accumulated in reverse. -/
def parseFields : Nat → List Char → List (String × Json) → Option (Json × List Char)
  | 0, _, _ => none
  | fuel + 1, cs, acc =>
    match skipWs cs with
    | '\"' :: rest =>
      (match parseStringBody [] rest with
      | none => none
      | some (k, rest2) =>
        match skipWs rest2 with
        | ':' :: rest3 =>
          (match parseValue fuel rest3 with
          | none => none
          | some (v, rest4) =>
            match skipWs rest4 with
            | ',' :: rest5 => parseFields fuel rest5 ((k, v) :: acc)
            | '\x7d' :: rest5 => some (.obj ((k, v) :: acc).reverse, rest5)
            | _ => none)
        | _ => none)
    | _ => none

end

/-- `JSON.parse` of a complete text: one value, possibly surrounded by
whitespace; `none` models the thrown SyntaxError. -/
def jsonParse (s : String) : Option Json :=
  match parseValue (s.length + 1) s.data with
  | some (v, rest) => if skipWs rest == [] then some v else none
  | none => none

/-- Line 22 of the source, the spec `load()`:
`let transactions = JSON.parse(localStorage.getItem('transactions')) || [];`.
`getItem` yields `null` when the key is absent, which `JSON.parse` coerces
to the string `"null"`; a parse failure is an uncaught SyntaxError
(`Except.error`); a parsed falsy value (in particular `null`) is replaced
by `[]` by the `||`. -/
def loadTransactions (stored : Option String) : Except String Json :=
  let raw := match stored with | none => "null" | some s => s
  match jsonParse raw with
  | none => .error "SyntaxError: Unexpected token in JSON"
  | some v => .ok (if jsTruthy v then v else .arr [])

/-! ## Concrete example data (used by scenario conjuncts and witnesses) -/

/-- The empty application state: no transactions, storage key absent. -/
def cState0 : AppState := { transactions := [], storage := none }

/-- Record dated 2024-01-01 (first insertion in the spec ordering
scenario). -/
def cTx1 : Transaction :=
  { id := 1, amount := "10", category := "a", description := "",
    date := "2024-01-01", type := "income" }

/-- Record dated 2024-03-01 (second insertion). -/
def cTx2 : Transaction :=
  { id := 2, amount := "20", category := "b", description := "",
    date := "2024-03-01", type := "expense" }

/-- Record dated 2024-02-01 (third insertion). -/
def cTx3 : Transaction :=
  { id := 3, amount := "30", category := "c", description := "",
    date := "2024-02-01", type := "income" }

/-- Record sharing the date of the first record but added later (tie-break
scenario). -/
def cTx1b : Transaction :=
  { id := 9, amount := "15", category := "z", description := "",
    date := "2024-01-01", type := "expense" }

/-- A form input whose category is a single space: nonempty, but blank
after trimming. -/
def wsCategoryInput : AddInput :=
  { amount := "25", category := " ", description := "", date := "2024-05-01",
    type := "expense" }

/-- A fully valid form input. -/
def validInput : AddInput :=
  { amount := "50.00", category := "Food", description := "lunch",
    date := "2024-05-01", type := "expense" }

/-! ## Helper lemmas -/

theorem jsTrim_empty : jsTrim "" = "" := rfl

theorem jsAdd_fin (a b : Rat) : jsAdd (.fin a) (.fin b) = .fin (a + b) := rfl

theorem foldl_jsAdd_fin (qs : List Rat) :
    ∀ a : Rat, qs.foldl (fun acc q => jsAdd acc (.fin q)) (.fin a) = .fin (a + qs.sum) := by
  induction qs with
  | nil => intro a; simp
  | cons q qs ih => intro a; simp [jsAdd_fin, ih, add_assoc]

theorem jsSum_fin (qs : List Rat) : jsSum (qs.map JsNum.fin) = .fin qs.sum := by
  simp [jsSum, List.foldl_map, foldl_jsAdd_fin]

theorem dateDescLe_trans (a b c : Transaction) :
    dateDescLe a b → dateDescLe b c → dateDescLe a c := by
  simp [dateDescLe]; omega

theorem dateDescLe_total (a b : Transaction) : dateDescLe a b || dateDescLe b a := by
  simp [dateDescLe]; omega

/-- Claim C1: `summarize` computes income as the sum of the parsed amounts of the
income records, expense as the sum over the expense records, and balance as
income minus expense; on the empty collection all three are zero.  (The
last conjunct: over amounts that parse to finite values, the JavaScript
fold is the exact rational sum.) -/
theorem C1_summarize_spec (ts : List Transaction) :
    (summarize ts).income =
      jsSum ((ts.filter (fun t => t.type == "income")).map (fun t => jsParseFloat t.amount)) ∧
    (summarize ts).expense =
      jsSum ((ts.filter (fun t => t.type == "expense")).map (fun t => jsParseFloat t.amount)) ∧
    (summarize ts).balance = jsSub (summarize ts).income (summarize ts).expense ∧
    summarize [] = { income := .fin 0, expense := .fin 0, balance := .fin 0 } ∧
    (∀ qs : List Rat, jsSum (qs.map JsNum.fin) = .fin qs.sum) := by
  refine ⟨?_, ?_, rfl, ?_, jsSum_fin⟩
  · simp [summarize, jsSum, List.foldl_map]
  · simp [summarize, jsSum, List.foldl_map]
  · simp [summarize, jsSub, jsAdd, jsNeg]

/-- Claim C3: after `remove(id)` no record with that id remains (also in the
rendered list), and if no record had that id the collection is unchanged;
the operation is total (no error). -/
theorem C3_remove_removes (st : AppState) (idArg : Nat) :
    (∀ t ∈ (removeTransaction idArg st).transactions, t.id ≠ idArg) ∧
    (∀ t ∈ listTransactions (removeTransaction idArg st).transactions, t.id ≠ idArg) ∧
    ((∀ t ∈ st.transactions, t.id ≠ idArg) →
      (removeTransaction idArg st).transactions = st.transactions) := by
  refine ⟨?_, ?_, ?_⟩
  · intro t ht
    simp [removeTransaction, saveTransactions] at ht
    exact ht.2
  · intro t ht
    rw [listTransactions, List.mem_mergeSort] at ht
    simp [removeTransaction, saveTransactions] at ht
    exact ht.2
  · intro h
    simp only [removeTransaction, saveTransactions]
    exact List.filter_eq_self.mpr (fun t ht => by simpa using h t ht)

/-- Claim C9: `remove(id)` only filters: the new collection is exactly the old
one with the matching ids removed, it is a sublist of the old collection
(fields and relative order untouched), and every record with a different
id is still present. -/
theorem C9_remove_frame (st : AppState) (idArg : Nat) :
    (removeTransaction idArg st).transactions
        = st.transactions.filter (fun t => t.id != idArg) ∧
    (removeTransaction idArg st).transactions.Sublist st.transactions ∧
    (∀ t ∈ st.transactions, t.id ≠ idArg → t ∈ (removeTransaction idArg st).transactions) := by
  refine ⟨rfl, ?_, ?_⟩
  · simp only [removeTransaction, saveTransactions]
    exact List.filter_sublist _
  · intro t ht hne
    simp [removeTransaction, saveTransactions, List.mem_filter, ht, hne]

/-- Claim C4: an add whose amount, category, date or type is empty is rejected by
both variants: the state (collection and storage) is returned unchanged and
the rejection is signalled. -/
theorem C4_add_rejects_empty (st : AppState) (now : Nat) (inp : AddInput)
    (h : inp.amount = "" ∨ inp.category = "" ∨ inp.date = "" ∨ inp.type = "") :
    addTransactionScript now inp st = (st, .rejected) ∧
    addTransactionVariant now inp st = (st, .rejected) := by
  constructor
  · rcases h with h | h | h | h <;> simp [addTransactionScript, h, jsTrim_empty]
  · rcases h with h | h | h | h <;> simp [addTransactionVariant, h]

/-- Claim C10: the script.js gate trims amount, category and date before the
presence check, so a whitespace-only value is rejected with no mutation;
the part_000 variant accepts the same whitespace-only category, showing
the trimmed check is strictly stricter. -/
theorem C10_script_trim_gate (st : AppState) (now : Nat) (inp : AddInput)
    (h : jsTrim inp.amount = "" ∨ jsTrim inp.category = "" ∨ jsTrim inp.date = "") :
    addTransactionScript now inp st = (st, .rejected) ∧
    addTransactionScript 7 wsCategoryInput cState0 = (cState0, .rejected) ∧
    (addTransactionVariant 7 wsCategoryInput cState0).2
        = .added (mkTransaction 7 wsCategoryInput) := by
  refine ⟨?_, by rfl, by rfl⟩
  rcases h with h | h | h <;> simp [addTransactionScript, h]

/-- Claim C2: a gate-passing add appends exactly one record, equal to the input
fields with id the creation timestamp, in both variants; the rendered list
afterwards has exactly one more record and contains the new record. -/
theorem C2_add_appends (st : AppState) (now : Nat) (inp : AddInput)
    (hA : jsTrim inp.amount ≠ "") (hC : jsTrim inp.category ≠ "")
    (hD : jsTrim inp.date ≠ "") (hT : inp.type ≠ "") :
    (addTransactionScript now inp st).1.transactions
        = st.transactions ++ [mkTransaction now inp] ∧
    (addTransactionScript now inp st).2 = .added (mkTransaction now inp) ∧
    (listTransactions (addTransactionScript now inp st).1.transactions).length
        = (listTransactions st.transactions).length + 1 ∧
    mkTransaction now inp ∈ listTransactions (addTransactionScript now inp st).1.transactions ∧
    (addTransactionVariant now inp st).1.transactions
        = st.transactions ++ [mkTransaction now inp] ∧
    (addTransactionVariant now inp st).2 = .added (mkTransaction now inp) ∧
    (mkTransaction now inp).id = now ∧
    (mkTransaction now inp).amount = inp.amount ∧
    (mkTransaction now inp).category = inp.category ∧
    (mkTransaction now inp).description = inp.description ∧
    (mkTransaction now inp).date = inp.date ∧
    (mkTransaction now inp).type = inp.type := by
  have hA0 : inp.amount ≠ "" := fun he => hA (by rw [he, jsTrim_empty])
  have hC0 : inp.category ≠ "" := fun he => hC (by rw [he, jsTrim_empty])
  have hD0 : inp.date ≠ "" := fun he => hD (by rw [he, jsTrim_empty])
  refine ⟨?_, ?_, ?_, ?_, ?_, ?_, rfl, rfl, rfl, rfl, rfl, rfl⟩ <;>
    simp [addTransactionScript, addTransactionVariant, saveTransactions,
      listTransactions, hA, hC, hD, hT, hA0, hC0, hD0, List.length_mergeSort,
      List.mem_mergeSort]

/-- Claim C6: the rendered list is the collection ordered by date descending (a
permutation of the collection, pairwise non-increasing date keys), and on
the spec concrete scenario the three records come out 2024-03-01,
2024-02-01, 2024-01-01. -/
theorem C6_list_ordering (ts : List Transaction)
    (hv : ∀ t ∈ ts, (dateValue t.date).isSome) :
    (listTransactions ts).Pairwise (fun a b => dateKeyT b ≤ dateKeyT a) ∧
    (listTransactions ts).Perm ts ∧
    listTransactions [cTx1, cTx2, cTx3] = [cTx2, cTx3, cTx1] := by
  refine ⟨?_, List.mergeSort_perm ts dateDescLe, ?_⟩
  · have h := List.sorted_mergeSort dateDescLe_trans dateDescLe_total ts
    exact h.imp (fun hab => by simpa [dateDescLe] using hab)
  · simp [listTransactions, List.mergeSort, List.splitInTwo, List.splitAt,
      List.splitAt.go, List.merge, dateDescLe, dateKeyT, dateValue,
      cTx1, cTx2, cTx3, digitVal, daysInMonth, isLeapYear]

/-- Claim C8: the sort behind the rendered list is stable, so two records with
the same date appear in the rendered list in insertion order. -/
theorem C8_list_stable (l1 l2 l3 : List Transaction) (a b : Transaction)
    (hdate : a.date = b.date) :
    [a, b].Sublist (listTransactions (l1 ++ a :: (l2 ++ b :: l3))) := by
  apply List.pair_sublist_mergeSort dateDescLe_trans dateDescLe_total
  · show dateDescLe a b
    simp [dateDescLe, dateKeyT, hdate]
  · have hb : [b].Sublist (l2 ++ b :: l3) :=
      (List.Sublist.cons₂ b (List.nil_sublist l3)).trans (List.sublist_append_right l2 _)
    have ha : [a, b].Sublist (a :: (l2 ++ b :: l3)) := List.Sublist.cons₂ a hb
    exact ha.trans (List.sublist_append_right l1 _)

/-! ## Round-trip helpers -/

theorem isDigit_toNat {c : Char} (h : c.isDigit = true) : 48 ≤ c.toNat ∧ c.toNat ≤ 57 := by
  simp only [Char.isDigit, ge_iff_le, Bool.and_eq_true, decide_eq_true_eq] at h
  obtain ⟨h1, h2⟩ := h
  rw [UInt32.le_def, BitVec.le_def] at h1 h2
  exact ⟨h1, h2⟩

theorem isDigit_enum {c : Char} (h : c.isDigit = true) :
    c = '0' ∨ c = '1' ∨ c = '2' ∨ c = '3' ∨ c = '4' ∨
    c = '5' ∨ c = '6' ∨ c = '7' ∨ c = '8' ∨ c = '9' := by
  obtain ⟨h1, h2⟩ := isDigit_toNat h
  have hc : c = Char.ofNat c.toNat := (Char.ofNat_toNat c).symm
  interval_cases hn : c.toNat <;> simp_all

theorem isDigit_ne {c : Char} (m : Char) (h : c.isDigit = true)
    (hm : m.toNat < 48 ∨ 57 < m.toNat) : c ≠ m := by
  obtain ⟨h1, h2⟩ := isDigit_toNat h
  intro he
  subst he
  omega

theorem takeWhile_all_append (p : Char → Bool) (l r : List Char)
    (hl : ∀ x ∈ l, p x = true) (hr : ∀ y, r.head? = some y → p y = false) :
    (l ++ r).takeWhile p = l ∧ (l ++ r).dropWhile p = r := by
  induction l with
  | nil =>
    cases r with
    | nil => simp
    | cons y ys =>
      have := hr y rfl
      simp [List.takeWhile_cons, List.dropWhile_cons, this]
  | cons x xs ih =>
    have hx := hl x (by simp)
    have hxs := ih (fun z hz => hl z (by simp [hz]))
    simp [List.takeWhile_cons, List.dropWhile_cons, hx, hxs.1, hxs.2]

theorem digitChar_facts (k : Nat) (h : k < 10) :
    (digitChar k).isDigit = true ∧ digitVal (digitChar k) = k ∧
    (digitChar k = '0' ↔ k = 0) := by
  interval_cases k <;> exact ⟨rfl, rfl, by decide⟩

theorem digitsVal_append_one (l : List Char) (c : Char) :
    digitsVal (l ++ [c]) = digitsVal l * 10 + digitVal c := by
  simp [digitsVal, List.foldl_append]

theorem natDigitsAux_spec :
    ∀ n, ∀ fuel acc, n ≤ fuel →
    ∃ d ds, natDigitsAux fuel n acc = d :: ds ++ acc ∧
      (∀ c ∈ d :: ds, c.isDigit = true) ∧
      digitsVal (d :: ds) = n ∧
      (d = '0' → n = 0 ∧ ds = []) := by
  intro n
  induction n using Nat.strong_induction_on with
  | _ n ih =>
    intro fuel acc hle
    match n, fuel with
    | 0, fuel =>
      refine ⟨'0', [], by cases fuel <;> simp [natDigitsAux], by decide, by decide,
        fun _ => ⟨rfl, rfl⟩⟩
    | n + 1, 0 => exact absurd hle (by omega)
    | n + 1, fuel + 1 =>
      by_cases hlt : n + 1 < 10
      · have hf := digitChar_facts (n + 1) hlt
        refine ⟨digitChar (n + 1), [], ?_, ?_, ?_, ?_⟩
        · simp [natDigitsAux, hlt]
        · intro c hc
          simp at hc
          simp [hc, hf.1]
        · simp [digitsVal, hf.2.1]
        · intro h0
          exact absurd (hf.2.2.mp h0) (by omega)
      · have hstep : natDigitsAux (fuel + 1) (n + 1) acc
            = natDigitsAux fuel ((n + 1) / 10) (digitChar ((n + 1) % 10) :: acc) := by
          simp [natDigitsAux, hlt]
        have hdiv : (n + 1) / 10 < n + 1 := by omega
        have hdivle : (n + 1) / 10 ≤ fuel := by omega
        obtain ⟨d, ds, heq, hdig, hval, hzero⟩ :=
          ih ((n + 1) / 10) hdiv fuel (digitChar ((n + 1) % 10) :: acc) hdivle
        have hmod := digitChar_facts ((n + 1) % 10) (by omega)
        refine ⟨d, ds ++ [digitChar ((n + 1) % 10)], ?_, ?_, ?_, ?_⟩
        · rw [hstep, heq]
          simp
        · intro c hc
          rcases List.mem_cons.mp hc with hc | hc
          · exact hc ▸ hdig d (by simp)
          · rcases List.mem_append.mp hc with hc | hc
            · exact hdig c (by simp [hc])
            · simp at hc
              simp [hc, hmod.1]
        · have : digitsVal ((d :: ds) ++ [digitChar ((n + 1) % 10)])
              = digitsVal (d :: ds) * 10 + digitVal (digitChar ((n + 1) % 10)) :=
            digitsVal_append_one _ _
          simp only [List.cons_append] at this
          rw [this, hval, hmod.2.1]
          omega
        · intro h0
          obtain ⟨hz, -⟩ := hzero h0
          omega

theorem natToChars_spec (n : Nat) :
    ∃ d ds, natToChars n = d :: ds ∧
      (∀ c ∈ d :: ds, c.isDigit = true) ∧
      digitsVal (d :: ds) = n ∧
      (d = '0' → n = 0 ∧ ds = []) := by
  obtain ⟨d, ds, heq, hdig, hval, hzero⟩ := natDigitsAux_spec n n [] (Nat.le_refl n)
  exact ⟨d, ds, by simpa using heq, hdig, hval, hzero⟩

theorem parseJsonInt_natToChars (n : Nat) (r : List Char)
    (hr : ∀ y, r.head? = some y → y.isDigit = false) :
    parseJsonInt (natToChars n ++ r) = some (n, r) := by
  obtain ⟨d, ds, heq, hdig, hval, hzero⟩ := natToChars_spec n
  rw [heq]
  by_cases hd0 : d = '0'
  · obtain ⟨hn0, hds⟩ := hzero hd0
    subst hd0 hds hn0
    simp only [List.nil_append, List.cons_append, parseJsonInt, if_pos rfl]
    cases r with
    | nil => simp [digitsVal]
    | cons y ys =>
      have := hr y rfl
      simp [this, digitsVal]
  · have hd : d.isDigit = true := hdig d (by simp)
    have htw := takeWhile_all_append Char.isDigit (d :: ds) r hdig hr
    rw [List.cons_append, parseJsonInt, if_neg hd0, if_pos hd,
      ← List.cons_append, htw.1, htw.2, hval]

theorem parseJsonNumber_natToChars (n : Nat) (r : List Char)
    (hr : ∀ y, r.head? = some y →
        y.isDigit = false ∧ y ≠ '.' ∧ y ≠ 'e' ∧ y ≠ 'E') :
    parseJsonNumber (natToChars n ++ r) = some (⟨(n : Int), 0⟩, r) := by
  obtain ⟨d, ds, heq, hdig, hval, hzero⟩ := natToChars_spec n
  have hd : d.isDigit = true := hdig d (by simp)
  have hdm : d ≠ '-' := isDigit_ne '-' hd (by decide)
  have hhead : (natToChars n ++ r).head? = some d := by
    rw [heq]; rfl
  have hne : ¬((natToChars n ++ r).head? = some '-') := by
    rw [hhead]
    simp [hdm]
  rw [parseJsonNumber]
  simp only [if_neg hne]
  rw [parseJsonInt_natToChars n r (fun y hy => (hr y hy).1)]
  have hfrac : parseJsonFrac r = some (0, 0, r) := by
    cases r with
    | nil => rfl
    | cons y ys =>
      have := (hr y rfl).2.1
      simp [parseJsonFrac, this]
  have hexp : parseJsonExp r = some (0, r) := by
    cases r with
    | nil => rfl
    | cons y ys =>
      have h1 := (hr y rfl).2.2.1
      have h2 := (hr y rfl).2.2.2
      simp [parseJsonExp, h1, h2]
  simp only [hfrac, hexp]
  simp

theorem escAll_foldr (l i : List Char) :
    l.foldr (fun c a => escChar c ++ a) i = escAll l ++ i := by
  induction l with
  | nil => simp [escAll]
  | cons c l ih => simp [escAll, ih]

theorem quoteChars_eq (s : String) :
    quoteChars s = '\"' :: (escAll s.data ++ ['\"']) := by
  rw [quoteChars, escAll_foldr]

theorem hexVal_hexDigitChar (m : Nat) (hm : m < 16) :
    hexVal (hexDigitChar m) = some m := by
  interval_cases m <;> decide

theorem psb_quote (acc rest : List Char) :
    parseStringBody acc ('\"' :: rest) = some (String.mk acc.reverse, rest) := by
  rw [parseStringBody, if_pos rfl]

theorem psb_esc (acc : List Char) (e : Char) (rest : List Char) :
    parseStringBody acc ('\\' :: e :: rest) = parseEscape acc (e :: rest) := by
  rw [parseStringBody, if_neg (by decide), if_pos rfl]

theorem psb_plain (c : Char) (acc rest : List Char)
    (h1 : ¬ c = '\"') (h2 : ¬ c = '\\') (h3 : ¬ c.toNat < 0x20) :
    parseStringBody acc (c :: rest) = parseStringBody (c :: acc) rest := by
  rw [parseStringBody, if_neg h1, if_neg h2, if_neg h3]

theorem hexQuad_control (m : Nat) (hm : m < 0x20) :
    hexQuad '0' '0' (hexDigitChar (m / 16)) (hexDigitChar (m % 16)) = some m := by
  rw [hexQuad, hexVal_hexDigitChar (m / 16) (by omega), hexVal_hexDigitChar (m % 16) (by omega),
    show hexVal '0' = some 0 from rfl]
  simp only [Option.some.injEq]
  omega

set_option maxHeartbeats 1600000 in
theorem psb_unicode (acc rest : List Char) (m : Nat) (hm : m < 0x20) :
    parseStringBody acc
        ('\\' :: 'u' :: '0' :: '0' :: hexDigitChar (m / 16) :: hexDigitChar (m % 16) :: rest)
      = parseStringBody (Char.ofNat m :: acc) rest := by
  rw [psb_esc, parseEscape, hexQuad_control m hm]
  simp only []
  rw [if_neg (by omega), if_neg (by omega)]

theorem pe_quote (acc r : List Char) :
    parseEscape acc ('\"' :: r) = parseStringBody ('\"' :: acc) r := rfl

theorem pe_backslash (acc r : List Char) :
    parseEscape acc ('\\' :: r) = parseStringBody ('\\' :: acc) r := rfl

theorem pe_b (acc r : List Char) :
    parseEscape acc ('b' :: r) = parseStringBody ('\x08' :: acc) r := rfl

theorem pe_f (acc r : List Char) :
    parseEscape acc ('f' :: r) = parseStringBody ('\x0c' :: acc) r := rfl

theorem pe_n (acc r : List Char) :
    parseEscape acc ('n' :: r) = parseStringBody ('\n' :: acc) r := rfl

theorem pe_r (acc r : List Char) :
    parseEscape acc ('r' :: r) = parseStringBody ('\r' :: acc) r := rfl

theorem pe_t (acc r : List Char) :
    parseEscape acc ('t' :: r) = parseStringBody ('\t' :: acc) r := rfl

set_option maxHeartbeats 1600000 in
theorem parseStringBody_escAll (l : List Char) :
    ∀ acc rest, parseStringBody acc (escAll l ++ ('\"' :: rest))
      = some (String.mk (acc.reverse ++ l), rest) := by
  induction l with
  | nil =>
    intro acc rest
    simpa using psb_quote acc rest
  | cons c l ih =>
    intro acc rest
    rw [show escAll (c :: l) = escChar c ++ escAll l from rfl, escChar]
    split_ifs with h1 h2 h3 h4 h5 h6 h7 h8
    · subst h1
      simp only [List.cons_append, List.nil_append, List.append_assoc]
      rw [psb_esc, pe_quote, ih]
      simp
    · subst h2
      simp only [List.cons_append, List.nil_append, List.append_assoc]
      rw [psb_esc, pe_backslash, ih]
      simp
    · subst h3
      simp only [List.cons_append, List.nil_append, List.append_assoc]
      rw [psb_esc, pe_b, ih]
      simp
    · subst h4
      simp only [List.cons_append, List.nil_append, List.append_assoc]
      rw [psb_esc, pe_t, ih]
      simp
    · subst h5
      simp only [List.cons_append, List.nil_append, List.append_assoc]
      rw [psb_esc, pe_n, ih]
      simp
    · subst h6
      simp only [List.cons_append, List.nil_append, List.append_assoc]
      rw [psb_esc, pe_f, ih]
      simp
    · subst h7
      simp only [List.cons_append, List.nil_append, List.append_assoc]
      rw [psb_esc, pe_r, ih]
      simp
    · simp only [List.cons_append, List.nil_append, List.append_assoc]
      rw [psb_unicode _ _ c.toNat h8, Char.ofNat_toNat, ih]
      simp
    · simp only [List.cons_append, List.nil_append, List.append_assoc]
      rw [psb_plain c acc _ h1 h2 h8, ih]
      simp

theorem skipWs_cons (c : Char) (cs : List Char) (h : isJsonWs c = false) :
    skipWs (c :: cs) = c :: cs := by
  simp [skipWs, List.dropWhile_cons, h]

theorem isJsonWs_digit {c : Char} (h : c.isDigit = true) : isJsonWs c = false := by
  have h1 := isDigit_ne ' ' h (by decide)
  have h2 := isDigit_ne '\t' h (by decide)
  have h3 := isDigit_ne '\n' h (by decide)
  have h4 := isDigit_ne '\r' h (by decide)
  simp [isJsonWs, h1, h2, h3, h4]

theorem pv_string (f : Nat) (s : String) (rest : List Char) :
    parseValue (f + 1) ('\"' :: (escAll s.data ++ ('\"' :: rest))) = some (.str s, rest) := by
  rw [parseValue, skipWs_cons _ _ (by decide)]
  simp only []
  rw [if_pos trivial, parseStringBody_escAll]
  simp

theorem pv_number (f n : Nat) (r : List Char)
    (hr : ∀ y, r.head? = some y → y.isDigit = false ∧ y ≠ '.' ∧ y ≠ 'e' ∧ y ≠ 'E') :
    parseValue (f + 1) (natToChars n ++ r) = some (.num ⟨(n : Int), 0⟩, r) := by
  obtain ⟨d, ds, heq, hdig, -, -⟩ := natToChars_spec n
  have hd : d.isDigit = true := hdig d (by simp)
  rw [heq, List.cons_append, parseValue, skipWs_cons _ _ (isJsonWs_digit hd)]
  simp only []
  rw [if_neg (isDigit_ne 'n' hd (by decide)), if_neg (isDigit_ne 't' hd (by decide)),
    if_neg (isDigit_ne 'f' hd (by decide)), if_neg (isDigit_ne '\"' hd (by decide)),
    if_neg (isDigit_ne '[' hd (by decide)), if_neg (isDigit_ne '\x7b' hd (by decide))]
  rw [← List.cons_append, ← heq, parseJsonNumber_natToChars n r hr]

theorem mk_data (s : String) : String.mk s.data = s := rfl

theorem pf_cons_val (f : Nat) (kd valText rest : List Char) (v : Json)
    (acc : List (String × Json))
    (hval : parseValue f (valText ++ ',' :: rest) = some (v, ',' :: rest)) :
    parseFields (f + 1)
        ('\"' :: (escAll kd ++ ('\"' :: (':' :: (valText ++ (',' :: rest)))))) acc
      = parseFields f rest ((String.mk kd, v) :: acc) := by
  rw [parseFields, skipWs_cons _ _ (by decide)]
  simp only []
  rw [parseStringBody_escAll]
  simp only [List.reverse_nil, List.nil_append]
  rw [skipWs_cons _ _ (by decide)]
  simp only []
  rw [hval]
  simp only []
  rw [skipWs_cons _ _ (by decide)]
  rfl

theorem pf_cons_str (f : Nat) (kd : List Char) (vs : String) (rest : List Char)
    (acc : List (String × Json))
    (hval : parseValue f ('\"' :: (escAll vs.data ++ ('\"' :: (',' :: rest))))
      = some (.str vs, ',' :: rest)) :
    parseFields (f + 1)
        ('\"' :: (escAll kd ++ ('\"' :: (':' ::
          ('\"' :: (escAll vs.data ++ ('\"' :: (',' :: rest)))))))) acc
      = parseFields f rest ((String.mk kd, .str vs) :: acc) := by
  rw [parseFields, skipWs_cons _ _ (by decide)]
  simp only []
  rw [parseStringBody_escAll]
  simp only [List.reverse_nil, List.nil_append]
  rw [skipWs_cons _ _ (by decide)]
  simp only []
  rw [hval]
  simp only []
  rw [skipWs_cons _ _ (by decide)]
  rfl

theorem pf_last_str (f : Nat) (kd : List Char) (vs : String) (rest : List Char)
    (acc : List (String × Json))
    (hval : parseValue f ('\"' :: (escAll vs.data ++ ('\"' :: ('\x7d' :: rest))))
      = some (.str vs, '\x7d' :: rest)) :
    parseFields (f + 1)
        ('\"' :: (escAll kd ++ ('\"' :: (':' ::
          ('\"' :: (escAll vs.data ++ ('\"' :: ('\x7d' :: rest)))))))) acc
      = some (.obj (((String.mk kd, .str vs) :: acc).reverse), rest) := by
  rw [parseFields, skipWs_cons _ _ (by decide)]
  simp only []
  rw [parseStringBody_escAll]
  simp only [List.reverse_nil, List.nil_append]
  rw [skipWs_cons _ _ (by decide)]
  simp only []
  rw [hval]
  simp only []
  rw [skipWs_cons _ _ (by decide)]
  rfl

theorem head_comma_facts : ∀ (r : List Char) (y : Char), (',' :: r).head? = some y →
    y.isDigit = false ∧ y ≠ '.' ∧ y ≠ 'e' ∧ y ≠ 'E' := by
  intro r y hy
  simp at hy
  subst hy
  exact ⟨by decide, by decide, by decide, by decide⟩

theorem pv_obj_quote (f : Nat) (cs : List Char) :
    parseValue (f + 1) ('\x7b' :: '\"' :: cs) = parseFields f ('\"' :: cs) [] := by
  rw [parseValue, skipWs_cons _ _ (by decide)]
  simp only []
  rw [skipWs_cons _ _ (by decide)]
  rfl

set_option maxHeartbeats 1600000 in
theorem pv_tx (f : Nat) (t : Transaction) (rest : List Char) :
    parseValue (f + 8) (stringifyTxChars t ++ rest) = some (encodeTx t, rest) := by
  rw [stringifyTxChars, stringifyTxBody]
  simp only [quoteChars_eq, List.cons_append, List.append_assoc, List.nil_append]
  rw [show f + 8 = (f + 7) + 1 from rfl, pv_obj_quote]
  rw [pf_cons_val (f + 6) _ (natToChars t.id) _ _ _
    (pv_number (f + 5) t.id _ (head_comma_facts _))]
  rw [pf_cons_str (f + 5) _ t.amount _ _ (pv_string (f + 4) t.amount _)]
  rw [pf_cons_str (f + 4) _ t.category _ _ (pv_string (f + 3) t.category _)]
  rw [pf_cons_str (f + 3) _ t.description _ _ (pv_string (f + 2) t.description _)]
  rw [pf_cons_str (f + 2) _ t.date _ _ (pv_string (f + 1) t.date _)]
  rw [pf_last_str (f + 1) _ t.type _ _ (pv_string f t.type _)]
  rfl

theorem slc_cons_head (t : Transaction) (ts2 : List Transaction) :
    ∃ tail, stringifyListChars (t :: ts2) = '\x7b' :: tail := by
  cases ts2 with
  | nil => exact ⟨stringifyTxBody t, rfl⟩
  | cons t2 ts3 => exact ⟨stringifyTxBody t ++ ',' :: stringifyListChars (t2 :: ts3), rfl⟩

theorem pv_arr_brace (f : Nat) (cs : List Char) :
    parseValue (f + 1) ('[' :: '\x7b' :: cs) = parseElems f ('\x7b' :: cs) [] := by
  rw [parseValue, skipWs_cons _ _ (by decide)]
  simp only []
  rw [skipWs_cons _ _ (by decide)]
  rfl

set_option maxHeartbeats 1600000 in
theorem parse_items : ∀ (ts : List Transaction), ts ≠ [] → ∀ (g : Nat) (acc : List Json) (rest : List Char),
    parseElems (9 * ts.length + g) (stringifyListChars ts ++ (']' :: rest)) acc
      = some (.arr (acc.reverse ++ ts.map encodeTx), rest)
  | [], hne => absurd rfl hne
  | [t], _ => by
    intro g acc rest
    simp only [List.length_cons, List.length_nil, stringifyListChars]
    rw [show 9 * (0 + 1) + g = (g + 8) + 1 from by omega, parseElems]
    rw [show g + 8 = g + 8 from rfl, pv_tx g t (']' :: rest)]
    simp only []
    rw [skipWs_cons _ _ (by decide)]
    simp only [List.map_cons, List.map_nil, List.reverse_cons]
  | t :: t2 :: ts3, _ => by
    intro g acc rest
    have ih := parse_items (t2 :: ts3) (by simp) (g + 8) (encodeTx t :: acc) rest
    simp only [List.length_cons] at ih ⊢
    rw [show 9 * (ts3.length + 1 + 1) + g = (9 * (ts3.length + 1) + g + 8) + 1 from by omega,
      parseElems]
    rw [show stringifyListChars (t :: t2 :: ts3)
        = stringifyTxChars t ++ ',' :: stringifyListChars (t2 :: ts3) from rfl]
    simp only [List.append_assoc, List.cons_append]
    rw [show 9 * (ts3.length + 1) + g + 8 = (9 * (ts3.length + 1) + g) + 8 from rfl,
      pv_tx (9 * (ts3.length + 1) + g) t]
    simp only []
    rw [skipWs_cons _ _ (by decide)]
    simp only []
    rw [show (9 * (ts3.length + 1) + g) + 8 = 9 * (ts3.length + 1) + (g + 8) from by omega]
    rw [ih]
    simp

set_option maxHeartbeats 1600000 in
theorem pv_array (ts : List Transaction) (hne : ts ≠ []) (g : Nat) (rest : List Char) :
    parseValue (9 * ts.length + g + 2) ('[' :: (stringifyListChars ts ++ (']' :: rest)))
      = some (.arr (ts.map encodeTx), rest) := by
  cases ts with
  | nil => exact absurd rfl hne
  | cons t ts2 =>
    obtain ⟨tail, htail⟩ := slc_cons_head t ts2
    rw [htail, List.cons_append,
      show 9 * (t :: ts2).length + g + 2 = (9 * (t :: ts2).length + g + 1) + 1 from by omega,
      pv_arr_brace, ← List.cons_append, ← htail,
      show 9 * (t :: ts2).length + g + 1 = 9 * (t :: ts2).length + (g + 1) from by omega,
      parse_items (t :: ts2) hne (g + 1) [] rest]
    simp

theorem data_mk (l : List Char) : (String.mk l).data = l := rfl

theorem length_mk (l : List Char) : (String.mk l).length = l.length := rfl

theorem txChars_len (t : Transaction) : 9 ≤ (stringifyTxChars t).length := by
  have h1 : (quoteChars "id").length = 4 := rfl
  have h2 : (quoteChars "amount").length = 8 := rfl
  simp [stringifyTxChars, stringifyTxBody, List.length_append, h1, h2]
  omega

theorem slc_len : ∀ ts : List Transaction, ts ≠ [] →
    9 * ts.length ≤ (stringifyListChars ts).length + 1
  | [], hne => absurd rfl hne
  | [t], _ => by
    have := txChars_len t
    simp only [stringifyListChars, List.length_cons, List.length_nil]
    omega
  | t :: t2 :: ts3, _ => by
    have h1 := txChars_len t
    have h2 := slc_len (t2 :: ts3) (by simp)
    rw [show stringifyListChars (t :: t2 :: ts3)
        = stringifyTxChars t ++ ',' :: stringifyListChars (t2 :: ts3) from rfl]
    simp only [List.length_cons, List.length_append] at h2 ⊢
    omega

set_option maxHeartbeats 1600000 in
theorem jsonParse_stringify (ts : List Transaction) :
    jsonParse (stringifyTransactions ts) = some (encodeTxs ts) := by
  cases ts with
  | nil => rfl
  | cons t ts2 =>
    have hbound := slc_len (t :: ts2) (by simp)
    simp only [List.length_cons] at hbound
    have hpv := pv_array (t :: ts2) (by simp)
      ((stringifyListChars (t :: ts2)).length + 1 - 9 * (ts2.length + 1)) []
    simp only [List.length_cons] at hpv
    rw [jsonParse, stringifyTransactions, data_mk, length_mk]
    simp only [List.cons_append, List.length_cons, List.length_append, List.length_nil]
    rw [show (stringifyListChars (t :: ts2)).length + (0 + 1) + 1 + 1
        = 9 * (ts2.length + 1)
          + ((stringifyListChars (t :: ts2)).length + 1 - 9 * (ts2.length + 1)) + 2 from by
      omega]
    rw [hpv]
    rfl

theorem decodeTx_encodeTx (t : Transaction) : decodeTx (encodeTx t) = some t := by
  simp [decodeTx, encodeTx, jsonField, List.find?]

theorem decodeTxs_encodeTxs (ts : List Transaction) :
    decodeTxs (encodeTxs ts) = some ts := by
  show decodeTxList (ts.map encodeTx) = some ts
  induction ts with
  | nil => rfl
  | cons t ts ih => simp_all [decodeTxList, decodeTx_encodeTx]

/-- Claim C7: persisting a collection and reloading it recovers it exactly:
the stored blob parses back to precisely the encoded collection (so the
load succeeds with a truthy array), and reading the six fields back out of
the encoding yields the original records field-for-field. -/
theorem C7_persist_roundtrip (st : AppState) :
    loadTransactions (saveTransactions st).storage = .ok (encodeTxs st.transactions) ∧
    decodeTxs (encodeTxs st.transactions) = some st.transactions := by
  constructor
  · show loadTransactions (some (stringifyTransactions st.transactions)) = _
    simp only [loadTransactions, jsonParse_stringify]
    simp [jsTruthy, encodeTxs]
  · exact decodeTxs_encodeTxs _

/-- Claim C5 counterexample: the blob consisting of a single opening brace is
malformed JSON; `load` does not silently yield the empty collection —
the `JSON.parse` SyntaxError propagates. -/
theorem C5_counterexample :
    loadTransactions (some "\x7b") = .error "SyntaxError: Unexpected token in JSON" ∧
    loadTransactions (some "\x7b") ≠ .ok (.arr []) := by
  refine ⟨rfl, ?_⟩
  intro h
  rw [show loadTransactions (some "\x7b")
      = .error "SyntaxError: Unexpected token in JSON" from rfl] at h
  exact Except.noConfusion h

/-- Claim C5 amended: `load` yields the empty collection when the storage key is
absent, the parsed value when the blob parses (with a falsy parse result
replaced by the empty collection), and propagates a SyntaxError — with no
silent fallback — when the blob is malformed. -/
theorem C5_load_spec (stored : Option String) :
    (stored = none → loadTransactions stored = .ok (.arr [])) ∧
    (∀ s v, stored = some s → jsonParse s = some v →
        loadTransactions stored = .ok (if jsTruthy v then v else .arr [])) ∧
    (∀ s, stored = some s → jsonParse s = none →
        loadTransactions stored = .error "SyntaxError: Unexpected token in JSON") := by
  refine ⟨?_, ?_, ?_⟩
  · rintro rfl
    rfl
  · rintro s v rfl hp
    simp [loadTransactions, hp]
  · rintro s rfl hp
    simp [loadTransactions, hp]

theorem C2_add_appends_witness :
    (addTransactionScript 7 validInput cState0).1.transactions
      = cState0.transactions ++ [mkTransaction 7 validInput] ∧
    (listTransactions (addTransactionScript 7 validInput cState0).1.transactions).length
      = (listTransactions cState0.transactions).length + 1 := by
  have h := C2_add_appends cState0 7 validInput (by decide) (by decide) (by decide) (by decide)
  exact ⟨h.1, h.2.2.1⟩

theorem C3_remove_removes_witness :
    (removeTransaction 99 { transactions := [cTx1], storage := none }).transactions = [cTx1] :=
  (C3_remove_removes { transactions := [cTx1], storage := none } 99).2.2 (by decide)

theorem C4_add_rejects_empty_witness :
    addTransactionScript 7
        { amount := "", category := "Food", description := "", date := "2024-05-01",
          type := "expense" } cState0 = (cState0, .rejected) ∧
    addTransactionVariant 7
        { amount := "", category := "Food", description := "", date := "2024-05-01",
          type := "expense" } cState0 = (cState0, .rejected) :=
  C4_add_rejects_empty cState0 7 _ (Or.inl rfl)

theorem C5_load_spec_witness :
    loadTransactions none = .ok (.arr []) ∧
    loadTransactions (some "[1]") = .ok (.arr [.num ⟨1, 0⟩]) ∧
    loadTransactions (some "]") = .error "SyntaxError: Unexpected token in JSON" := by
  refine ⟨(C5_load_spec none).1 rfl, ?_,
    (C5_load_spec (some "]")).2.2 "]" rfl (by rfl)⟩
  have h := (C5_load_spec (some "[1]")).2.1 "[1]" (.arr [.num ⟨1, 0⟩]) rfl (by rfl)
  simpa [jsTruthy] using h

theorem C6_list_ordering_witness :
    listTransactions [cTx1, cTx2, cTx3] = [cTx2, cTx3, cTx1] :=
  (C6_list_ordering [cTx1, cTx2, cTx3] (by decide)).2.2

theorem C8_list_stable_witness :
    [cTx1, cTx1b].Sublist (listTransactions [cTx1, cTx1b]) :=
  C8_list_stable [] [] [] cTx1 cTx1b rfl

theorem C9_remove_frame_witness :
    cTx1 ∈ (removeTransaction 99 { transactions := [cTx1], storage := none }).transactions :=
  (C9_remove_frame { transactions := [cTx1], storage := none } 99).2.2 cTx1 (by decide)
    (by decide)

theorem C10_script_trim_gate_witness :
    addTransactionScript 7 wsCategoryInput cState0 = (cState0, .rejected) :=
  (C10_script_trim_gate cState0 7 wsCategoryInput (Or.inr (Or.inl (by decide)))).1
